import Mathlib

/-!
Verification of the chat-session persistence and file-resolution subsystem of
the ChatOpsDesktop repository (src/GUI/Item_SidePanel.py and
src/Operation/Operation_Chat_Controller.py).

Strings are modelled as lists of characters (`Str`), the per-folder file system
as an association list from file names to parsed JSON contents (`none` marks a
file whose contents are not valid JSON), and JSON documents as an inductive
`Json` type.  Effects (the HTTP POST performed by the worker thread, the
markdown/LaTeX renderer) are modelled as function parameters.
-/

namespace ChatOps

abbrev Str := List Char

/-- Characters replaced by an underscore by both sanitizers
(Python regex `[\/\\\:\*\?\"\<\>\|]`). -/
def forbiddenChar (c : Char) : Bool :=
  c = '/' || c = Char.ofNat 92 || c = ':' || c = '*' || c = '?' ||
  c = Char.ofNat 34 || c = '<' || c = '>' || c = '|'

/-- Whitespace as matched by the Python regex class `\s` (ASCII part). -/
def pyWhitespace (c : Char) : Bool :=
  c = ' ' || c = Char.ofNat 9 || c = Char.ofNat 10 || c = Char.ofNat 13 ||
  c = Char.ofNat 11 || c = Char.ofNat 12

/-- A space or a dot, the class stripped from the right by `rstrip(' .')`. -/
def dotOrSpace (c : Char) : Bool :=
  c = ' ' || c = '.'

/-- Python `re.sub(r'[\/\\\:\*\?\"\<\>\|]', '_', s)`. -/
def replaceForbidden (s : Str) : Str :=
  s.map (fun c => if forbiddenChar c then '_' else c)

/-- Worker for `collapseWS`; the boolean records whether the previous character
was whitespace (in which case further whitespace is dropped). -/
def collapseWSAux : Bool → Str → Str
  | _, [] => []
  | prev, c :: rest =>
    if pyWhitespace c then
      if prev then collapseWSAux true rest else ' ' :: collapseWSAux true rest
    else c :: collapseWSAux false rest

/-- Python `re.sub(r'\s+', ' ', s)`: every maximal whitespace run becomes one
space. -/
def collapseWS (s : Str) : Str := collapseWSAux false s

/-- Python `s.lstrip()` restricted to a character class `P`. -/
def lstripP (P : Char → Bool) (s : Str) : Str := s.dropWhile P

/-- Python `s.rstrip(chars)`: drop trailing characters satisfying `P`. -/
def rstripP (P : Char → Bool) (s : Str) : Str := (s.reverse.dropWhile P).reverse

/-- Python `s.strip()` (strips whitespace from both ends). -/
def stripWS (s : Str) : Str := rstripP pyWhitespace (lstripP pyWhitespace s)

/-- The local `_sanitize` helper inside
`Operation_Chat_Controller.resolve_chat_file`:
replace forbidden characters, collapse whitespace, strip, and remove trailing
spaces and dots. -/
def ctrl_sanitize (s : Str) : Str :=
  rstripP dotOrSpace (stripWS (collapseWS (replaceForbidden s)))

/-- `Item_SidePanel.sanitize_filename` with `max_len = 200`.  The `fallback`
argument stands for the timestamp string
`datetime.now().strftime("Chat_%Y-%m-%d_%H-%M-%S")` computed when the cleaned
name is empty. -/
def sanitize_filename (fallback : Str) (name : Str) : Str :=
  let cleaned := stripWS (collapseWS (replaceForbidden name))
  let cleaned :=
    if 200 < cleaned.length then rstripP pyWhitespace (cleaned.take 200)
    else cleaned
  let cleaned := rstripP dotOrSpace cleaned
  if cleaned = [] then fallback else cleaned

/-! ### Generic lemmas about the string-processing helpers -/

theorem head?_append_left {l : Str} (r : Str) (h : l ≠ []) :
    (l ++ r).head? = l.head? := by
  cases l with
  | nil => exact absurd rfl h
  | cons c t => simp

theorem dropWhile_append_all {P : Char → Bool} {m : Str}
    (h : ∀ c ∈ m, P c = true) (r : Str) :
    (m ++ r).dropWhile P = r.dropWhile P := by
  induction m with
  | nil => rfl
  | cons c m ih =>
    rw [List.cons_append, List.dropWhile_cons, if_pos (h c (by simp))]
    exact ih (fun d hd => h d (by simp [hd]))

theorem rstripP_append_all {P : Char → Bool} {t : Str}
    (h : ∀ c ∈ t, P c = true) (s : Str) :
    rstripP P (s ++ t) = rstripP P s := by
  unfold rstripP
  rw [List.reverse_append, dropWhile_append_all (fun c hc => h c (List.mem_reverse.mp hc))]

theorem rstripP_decomp (P : Char → Bool) (s : Str) :
    ∃ t, s = rstripP P s ++ t ∧ ∀ c ∈ t, P c = true := by
  refine ⟨(s.reverse.takeWhile P).reverse, ?_, ?_⟩
  · conv_lhs => rw [← s.reverse_reverse,
      ← List.takeWhile_append_dropWhile P s.reverse]
    rw [List.reverse_append]
    rfl
  · intro c hc
    exact List.mem_takeWhile_imp (List.mem_reverse.mp hc)

theorem rstripP_getLast? {P : Char → Bool} {s : Str} {c : Char}
    (h : (rstripP P s).getLast? = some c) : P c = false := by
  unfold rstripP at h
  rw [List.getLast?_reverse] at h
  have := List.head?_dropWhile_not P s.reverse
  rw [h] at this
  simpa using this

theorem rstripP_eq_self {P : Char → Bool} {s : Str}
    (h : ∀ c, s.getLast? = some c → P c = false) : rstripP P s = s := by
  unfold rstripP
  cases hs : s.reverse with
  | nil =>
    have : s = [] := by
      have := congrArg List.reverse hs
      simpa using this
    simp [this]
  | cons c t =>
    have hc : P c = false := by
      apply h
      rw [← List.head?_reverse, hs]
      rfl
    rw [List.dropWhile_cons, if_neg (by simp [hc]), ← hs, List.reverse_reverse]

theorem rstripP_sublist (P : Char → Bool) (s : Str) : (rstripP P s).Sublist s := by
  unfold rstripP
  have h1 : (s.reverse.dropWhile P).Sublist s.reverse :=
    (List.dropWhile_suffix P).sublist
  have := h1.reverse
  rwa [List.reverse_reverse] at this

theorem mem_rstripP {P : Char → Bool} {s : Str} {c : Char}
    (h : c ∈ rstripP P s) : c ∈ s :=
  (rstripP_sublist P s).mem h

theorem length_rstripP_le (P : Char → Bool) (s : Str) :
    (rstripP P s).length ≤ s.length :=
  (rstripP_sublist P s).length_le

theorem rstripP_idem (P : Char → Bool) (s : Str) :
    rstripP P (rstripP P s) = rstripP P s :=
  rstripP_eq_self (fun _ hc => rstripP_getLast? hc)

theorem mem_stripWS {s : Str} {c : Char} (h : c ∈ stripWS s) : c ∈ s := by
  unfold stripWS lstripP at h
  exact (List.dropWhile_suffix pyWhitespace).sublist.mem (mem_rstripP h)

theorem rstripP_append_sub {P : Char → Bool} (l t : Str)
    (hlast : ∀ c, l.getLast? = some c → P c = false) :
    ∃ t2, rstripP P (l ++ t) = l ++ t2 ∧ t2.Sublist t := by
  unfold rstripP
  rw [List.reverse_append, List.dropWhile_append]
  by_cases he : (t.reverse.dropWhile P).isEmpty
  · refine ⟨[], ?_, List.nil_sublist t⟩
    rw [if_pos he, List.append_nil]
    have : rstripP P l = l := rstripP_eq_self hlast
    unfold rstripP at this
    rw [this]
  · refine ⟨rstripP P t, ?_, rstripP_sublist P t⟩
    rw [if_neg he, List.reverse_append, List.reverse_reverse]
    rfl

/-! ### Properties of whitespace collapsing -/

theorem collapseWSAux_ws_mem {s : Str} :
    ∀ {b : Bool} {c : Char}, c ∈ collapseWSAux b s → pyWhitespace c = true → c = ' ' := by
  induction s with
  | nil => intro b c h; simp [collapseWSAux] at h
  | cons d t ih =>
    intro b c h hws
    unfold collapseWSAux at h
    by_cases hd : pyWhitespace d
    · rw [if_pos hd] at h
      cases b with
      | true => exact ih h hws
      | false =>
        rw [if_neg (by simp)] at h
        rcases List.mem_cons.mp h with h | h
        · exact h
        · exact ih h hws
    · rw [if_neg hd] at h
      rcases List.mem_cons.mp h with h | h
      · subst h; rw [hws] at hd; exact absurd rfl hd
      · exact ih h hws

theorem collapseWS_ws_mem {s : Str} {c : Char} (h : c ∈ collapseWS s)
    (hws : pyWhitespace c = true) : c = ' ' :=
  collapseWSAux_ws_mem h hws

theorem collapseWSAux_mem {s : Str} :
    ∀ {b : Bool} {c : Char}, c ∈ collapseWSAux b s → c = ' ' ∨ c ∈ s := by
  induction s with
  | nil => intro b c h; simp [collapseWSAux] at h
  | cons d t ih =>
    intro b c h
    unfold collapseWSAux at h
    by_cases hd : pyWhitespace d
    · rw [if_pos hd] at h
      cases b with
      | true =>
        rcases ih h with h | h
        · exact Or.inl h
        · exact Or.inr (by simp [h])
      | false =>
        rw [if_neg (by simp)] at h
        rcases List.mem_cons.mp h with h | h
        · exact Or.inl h
        · rcases ih h with h | h
          · exact Or.inl h
          · exact Or.inr (by simp [h])
    · rw [if_neg hd] at h
      rcases List.mem_cons.mp h with h | h
      · exact Or.inr (by simp [h])
      · rcases ih h with h | h
        · exact Or.inl h
        · exact Or.inr (by simp [h])

/-- Every whitespace character in the cleaned form
`stripWS (collapseWS (replaceForbidden s))` is a plain space. -/
theorem cleaned_ws_space {s : Str} {c : Char}
    (h : c ∈ stripWS (collapseWS (replaceForbidden s)))
    (hws : pyWhitespace c = true) : c = ' ' :=
  collapseWS_ws_mem (mem_stripWS h) hws

/-! ### C9: the two sanitizers agree on short, non-degenerate names -/

/-- C9.  If the cleaned form of `s` (forbidden characters replaced, whitespace
collapsed, stripped, trailing dots and spaces removed — which is exactly
`ctrl_sanitize s`) is non-empty and at most 200 characters long, then the side
panel function `sanitize_filename` and the controller helper `_sanitize`
return the same string, whatever timestamp `fb` the side panel would use as a
fallback. -/
theorem sanitize_agree (fb s : Str)
    (hne : ctrl_sanitize s ≠ [])
    (hlen : (ctrl_sanitize s).length ≤ 200) :
    sanitize_filename fb s = ctrl_sanitize s := by
  unfold sanitize_filename
  dsimp only
  set cl := stripWS (collapseWS (replaceForbidden s)) with hcl
  have hcf : ctrl_sanitize s = rstripP dotOrSpace cl := rfl
  by_cases h200 : 200 < cl.length
  · rw [if_pos h200]
    obtain ⟨t, hdec, ht⟩ := rstripP_decomp dotOrSpace cl
    rw [← hcf] at hdec
    have hcf_len : (ctrl_sanitize s).length ≤ 200 := hlen
    have htake : cl.take 200 = ctrl_sanitize s ++ t.take (200 - (ctrl_sanitize s).length) := by
      rw [hdec, List.take_append_eq_append_take, List.take_of_length_le hcf_len]
    have hlast : ∀ c, (ctrl_sanitize s).getLast? = some c → pyWhitespace c = false := by
      intro c hcLast
      have hds : dotOrSpace c = false := rstripP_getLast? (hcf ▸ hcLast)
      have hmem : c ∈ cl := by
        rw [hdec]
        exact List.mem_append_left _ (List.mem_of_getLast?_eq_some hcLast)
      by_contra hws
      have hws' : pyWhitespace c = true := by
        cases hw : pyWhitespace c
        · exact absurd hw hws
        · rfl
      have : c = ' ' := cleaned_ws_space hmem hws'
      subst this
      simp [dotOrSpace] at hds
    obtain ⟨t2, ht2, ht2sub⟩ :=
      rstripP_append_sub (P := pyWhitespace) (ctrl_sanitize s)
        (t.take (200 - (ctrl_sanitize s).length)) hlast
    rw [htake, ht2, rstripP_append_all (fun c hc =>
      ht c (List.mem_of_mem_take (ht2sub.mem hc)))]
    rw [hcf, rstripP_idem, ← hcf, if_neg hne]
  · rw [if_neg h200, ← hcf, if_neg hne]

/-- Witness for `sanitize_agree` at a concrete input: the name
`a/b  c.` cleans to `a_b c`, which both sanitizers return. -/
theorem sanitize_agree_witness :
    ctrl_sanitize ['a', '/', 'b', ' ', ' ', 'c', '.'] ≠ [] ∧
    (ctrl_sanitize ['a', '/', 'b', ' ', ' ', 'c', '.']).length ≤ 200 ∧
    sanitize_filename [] ['a', '/', 'b', ' ', ' ', 'c', '.'] =
      ctrl_sanitize ['a', '/', 'b', ' ', ' ', 'c', '.'] :=
  ⟨by decide, by decide, sanitize_agree [] _ (by decide) (by decide)⟩

/-! ### Absence of adjacent whitespace, and when collapsing is the identity -/

theorem mem_of_head? {l : Str} {c : Char} (h : l.head? = some c) : c ∈ l := by
  cases l with
  | nil => simp at h
  | cons d t =>
    simp at h
    simp [h]

/-- No two adjacent characters are both whitespace. -/
def noTwoWS : Str → Bool
  | [] => true
  | [_] => true
  | c :: d :: r => (!(pyWhitespace c && pyWhitespace d)) && noTwoWS (d :: r)

theorem noTwoWS_cons_cons (c d : Char) (r : Str) :
    noTwoWS (c :: d :: r) = ((!(pyWhitespace c && pyWhitespace d)) && noTwoWS (d :: r)) :=
  rfl

theorem and_true_left {a b : Bool} (h : (a && b) = true) : a = true := by
  cases a
  · simp at h
  · rfl

theorem and_true_right {a b : Bool} (h : (a && b) = true) : b = true := by
  cases a
  · simp at h
  · simpa using h

theorem noTwoWS_tail {c : Char} {r : Str} (h : noTwoWS (c :: r) = true) :
    noTwoWS r = true := by
  cases r with
  | nil => rfl
  | cons d t =>
    rw [noTwoWS_cons_cons] at h
    exact and_true_right h

theorem noTwoWS_cons_of_head {c : Char} {r : Str} (hc : pyWhitespace c = false)
    (hr : noTwoWS r = true) : noTwoWS (c :: r) = true := by
  cases r with
  | nil => rfl
  | cons d t =>
    rw [noTwoWS_cons_cons, hc, hr]
    rfl

theorem noTwoWS_cons_of_next {a : Char} {X : Str}
    (hX : ∀ c r, X = c :: r → pyWhitespace c = false) (h : noTwoWS X = true) :
    noTwoWS (a :: X) = true := by
  cases X with
  | nil => rfl
  | cons c r =>
    rw [noTwoWS_cons_cons, hX c r rfl, h]
    simp

theorem noTwoWS_of_all_nonws {s : Str} (h : ∀ c ∈ s, pyWhitespace c = false) :
    noTwoWS s = true := by
  induction s with
  | nil => rfl
  | cons c t ih =>
    exact noTwoWS_cons_of_head (h c (by simp)) (ih (fun d hd => h d (by simp [hd])))

theorem noTwoWS_append_left {r : Str} :
    ∀ {l : Str}, noTwoWS (l ++ r) = true → noTwoWS l = true := by
  intro l
  induction l with
  | nil => intro _; rfl
  | cons c l' ih =>
    intro h
    cases l' with
    | nil => rfl
    | cons d l'' =>
      rw [List.cons_append, List.cons_append, noTwoWS_cons_cons] at h
      rw [noTwoWS_cons_cons, and_true_left h]
      have ht : noTwoWS (d :: l'') = true := by
        apply ih
        rw [List.cons_append]
        exact and_true_right h
      rw [ht]
      rfl

theorem noTwoWS_append {l r : Str} (hl : noTwoWS l = true) (hr : noTwoWS r = true)
    (hb : (∀ c, l.getLast? = some c → pyWhitespace c = false) ∨
          (∀ c, r.head? = some c → pyWhitespace c = false)) :
    noTwoWS (l ++ r) = true := by
  induction l with
  | nil => exact hr
  | cons c l' ih =>
    cases l' with
    | nil =>
      cases r with
      | nil => rfl
      | cons d r' =>
        have hpair : (pyWhitespace c && pyWhitespace d) = false := by
          rcases hb with hb | hb
          · rw [hb c rfl]
            exact Bool.false_and _
          · rw [hb d rfl]
            exact Bool.and_false _
        rw [List.singleton_append, noTwoWS_cons_cons, hpair, hr]
        rfl
    | cons c2 l'' =>
      rw [noTwoWS_cons_cons] at hl
      have htail : noTwoWS ((c2 :: l'') ++ r) = true := by
        apply ih (and_true_right hl)
        rcases hb with hb | hb
        · exact Or.inl (fun e he => hb e (by rw [List.getLast?_cons_cons]; exact he))
        · exact Or.inr hb
      rw [List.cons_append, List.cons_append, noTwoWS_cons_cons, and_true_left hl]
      rw [List.cons_append] at htail
      rw [htail]
      rfl

theorem noTwoWS_dropWhile {P : Char → Bool} {s : Str} (h : noTwoWS s = true) :
    noTwoWS (s.dropWhile P) = true := by
  induction s with
  | nil => rfl
  | cons c t ih =>
    rw [List.dropWhile_cons]
    by_cases hc : P c = true
    · rw [if_pos hc]
      exact ih (noTwoWS_tail h)
    · rw [if_neg hc]
      exact h

theorem noTwoWS_rstripP {P : Char → Bool} {s : Str} (h : noTwoWS s = true) :
    noTwoWS (rstripP P s) = true := by
  obtain ⟨t, hdec, _⟩ := rstripP_decomp P s
  rw [hdec] at h
  exact noTwoWS_append_left h

theorem noTwoWS_take {s : Str} (n : Nat) (h : noTwoWS s = true) :
    noTwoWS (s.take n) = true := by
  have : noTwoWS (s.take n ++ s.drop n) = true := by
    rw [List.take_append_drop]
    exact h
  exact noTwoWS_append_left this

theorem collapseWSAux_head_true {s : Str} :
    ∀ {c : Char} {r : Str}, collapseWSAux true s = c :: r → pyWhitespace c = false := by
  induction s with
  | nil => intro c r h; simp [collapseWSAux] at h
  | cons d t ih =>
    intro c r h
    unfold collapseWSAux at h
    by_cases hd : pyWhitespace d = true
    · rw [if_pos hd, if_pos rfl] at h
      exact ih h
    · rw [if_neg hd] at h
      injection h with h1 _
      subst h1
      cases hpw : pyWhitespace d
      · rfl
      · exact absurd hpw hd

theorem noTwoWS_collapseWSAux (s : Str) : ∀ b, noTwoWS (collapseWSAux b s) = true := by
  induction s with
  | nil => intro b; rfl
  | cons d t ih =>
    intro b
    unfold collapseWSAux
    by_cases hd : pyWhitespace d = true
    · rw [if_pos hd]
      cases b with
      | true =>
        rw [if_pos rfl]
        exact ih true
      | false =>
        rw [if_neg (by simp)]
        apply noTwoWS_cons_of_next
        · intro c r hc
          exact collapseWSAux_head_true hc
        · exact ih true
    · rw [if_neg hd]
      refine noTwoWS_cons_of_head ?_ (ih false)
      cases hw : pyWhitespace d
      · rfl
      · exact absurd hw hd

theorem noTwoWS_collapseWS (s : Str) : noTwoWS (collapseWS s) = true :=
  noTwoWS_collapseWSAux s false

theorem collapseWSAux_eq_self {s : Str}
    (hws : ∀ c ∈ s, pyWhitespace c = true → c = ' ') (hn : noTwoWS s = true) :
    ∀ b, (b = true → ∀ c r, s = c :: r → pyWhitespace c = false) →
      collapseWSAux b s = s := by
  induction s with
  | nil => intro b _; rfl
  | cons d t ih =>
    intro b hb
    unfold collapseWSAux
    by_cases hd : pyWhitespace d = true
    · cases b with
      | true => exact absurd hd (by simp [hb rfl d t rfl])
      | false =>
        rw [if_pos hd, if_neg (by simp)]
        have hd' : d = ' ' := hws d (by simp) hd
        have htt : collapseWSAux true t = t := by
          apply ih (fun c hc h => hws c (by simp [hc]) h) (noTwoWS_tail hn)
          intro _ c r hr
          subst hr
          rw [noTwoWS_cons_cons] at hn
          have hp := and_true_left hn
          rw [hd] at hp
          simpa using hp
        rw [htt, hd']
    · rw [if_neg hd]
      have htt : collapseWSAux false t = t :=
        ih (fun c hc h => hws c (by simp [hc]) h) (noTwoWS_tail hn) false (by simp)
      rw [htt]

theorem collapseWS_eq_self {s : Str}
    (hws : ∀ c ∈ s, pyWhitespace c = true → c = ' ') (hn : noTwoWS s = true) :
    collapseWS s = s :=
  collapseWSAux_eq_self hws hn false (by simp)

theorem mem_replaceForbidden_not {s : Str} {c : Char} (h : c ∈ replaceForbidden s) :
    forbiddenChar c = false := by
  unfold replaceForbidden at h
  obtain ⟨d, _, hcd⟩ := List.mem_map.mp h
  by_cases hdf : forbiddenChar d = true
  · rw [if_pos hdf] at hcd
    rw [← hcd]
    decide
  · rw [if_neg hdf] at hcd
    rw [← hcd]
    cases hw : forbiddenChar d
    · rfl
    · exact absurd hw hdf

theorem replaceForbidden_eq_self {s : Str} (h : ∀ c ∈ s, forbiddenChar c = false) :
    replaceForbidden s = s := by
  induction s with
  | nil => rfl
  | cons c t ih =>
    unfold replaceForbidden
    rw [List.map_cons, if_neg (by simp [h c (by simp)])]
    have := ih (fun d hd => h d (by simp [hd]))
    unfold replaceForbidden at this
    rw [this]

theorem dropWhile_eq_self_of_head {P : Char → Bool} {s : Str}
    (h : ∀ c, s.head? = some c → P c = false) : s.dropWhile P = s := by
  cases s with
  | nil => rfl
  | cons c t =>
    rw [List.dropWhile_cons, if_neg (by simp [h c rfl])]

theorem head?_rstripP {P : Char → Bool} {s : Str} (h : rstripP P s ≠ []) :
    (rstripP P s).head? = s.head? := by
  obtain ⟨t, hdec, _⟩ := rstripP_decomp P s
  conv_rhs => rw [hdec]
  rw [head?_append_left _ h]

theorem head?_take {s : Str} {n : Nat} (hn : n ≠ 0) : (s.take n).head? = s.head? := by
  cases s <;> cases n <;> simp_all

/-! ### The `Sanitized` invariant: strings that `sanitize_filename` leaves alone -/

/-- Invariant satisfied by every output of `sanitize_filename` (and by the
timestamp fallbacks): non-empty, free of forbidden characters, whitespace is
single internal spaces, and the string neither starts with whitespace nor ends
in a space or a dot, with length at most 200. -/
structure Sanitized (r : Str) : Prop where
  ne : r ≠ []
  nf : ∀ c ∈ r, forbiddenChar c = false
  ws : ∀ c ∈ r, pyWhitespace c = true → c = ' '
  ntw : noTwoWS r = true
  hd : ∀ c, r.head? = some c → pyWhitespace c = false
  lst : ∀ c, r.getLast? = some c → dotOrSpace c = false
  len : r.length ≤ 200

/-- A `Sanitized` string is a fixed point of `sanitize_filename`. -/
theorem sanitize_fixed {r : Str} (h : Sanitized r) (fb : Str) :
    sanitize_filename fb r = r := by
  have hlstws : ∀ c, r.getLast? = some c → pyWhitespace c = false := by
    intro c hc
    cases hw : pyWhitespace c
    · rfl
    · have : c = ' ' := h.ws c (List.mem_of_getLast?_eq_some hc) hw
      subst this
      have := h.lst _ hc
      simp [dotOrSpace] at this
  have hstrip : stripWS r = r := by
    unfold stripWS lstripP
    rw [dropWhile_eq_self_of_head h.hd]
    exact rstripP_eq_self hlstws
  unfold sanitize_filename
  dsimp only
  have hlen : ¬ (200 < r.length) := by
    have := h.len
    omega
  rw [replaceForbidden_eq_self h.nf, collapseWS_eq_self h.ws h.ntw, hstrip,
    if_neg hlen, rstripP_eq_self h.lst, if_neg h.ne]

/-- Every output of `sanitize_filename` is `Sanitized`, provided the timestamp
fallback is. -/
theorem sanitize_output {fb : Str} (hfb : Sanitized fb) (s : Str) :
    Sanitized (sanitize_filename fb s) := by
  unfold sanitize_filename
  dsimp only
  set cl := stripWS (collapseWS (replaceForbidden s)) with hcl
  set cl2 := if 200 < cl.length then rstripP pyWhitespace (cl.take 200) else cl
    with hcl2
  set r := rstripP dotOrSpace cl2 with hr
  by_cases hre : r = []
  · rw [if_pos hre]
    exact hfb
  · rw [if_neg hre]
    have hmem2 : ∀ c ∈ cl2, c ∈ cl := by
      intro c hc
      rw [hcl2] at hc
      by_cases h200 : 200 < cl.length
      · rw [if_pos h200] at hc
        exact List.mem_of_mem_take (mem_rstripP hc)
      · rw [if_neg h200] at hc
        exact hc
    have hmemr : ∀ c ∈ r, c ∈ cl := fun c hc => hmem2 c (mem_rstripP hc)
    have hclws : ∀ c ∈ cl, pyWhitespace c = true → c = ' ' := by
      intro c hc hw
      exact cleaned_ws_space (hcl ▸ hc) hw
    have hclntw : noTwoWS cl = true := by
      rw [hcl]
      unfold stripWS lstripP
      exact noTwoWS_rstripP (noTwoWS_dropWhile (noTwoWS_collapseWS _))
    have hcl2ne : cl2 ≠ [] := by
      intro hnil
      apply hre
      rw [hr, hnil]
      rfl
    have hcl2head : cl2.head? = cl.head? := by
      rw [hcl2]
      by_cases h200 : 200 < cl.length
      · rw [if_pos h200]
        have hne2 : rstripP pyWhitespace (cl.take 200) ≠ [] := by
          rw [hcl2, if_pos h200] at hcl2ne
          exact hcl2ne
        rw [head?_rstripP hne2, head?_take (by omega)]
      · rw [if_neg h200]
    constructor
    · exact hre
    · intro c hc
      have := hmemr c hc
      rw [hcl] at this
      rcases collapseWSAux_mem (mem_stripWS this) with h1 | h1
      · subst h1; decide
      · exact mem_replaceForbidden_not h1
    · intro c hc hw
      exact hclws c (hmemr c hc) hw
    · rw [hr]
      apply noTwoWS_rstripP
      rw [hcl2]
      by_cases h200 : 200 < cl.length
      · rw [if_pos h200]
        exact noTwoWS_rstripP (noTwoWS_take _ hclntw)
      · rw [if_neg h200]
        exact hclntw
    · intro c hc
      have hre2 : rstripP dotOrSpace cl2 ≠ [] := by
        rw [← hr]
        exact hre
      have hhd2 : cl2.head? = some c := by
        rw [← head?_rstripP hre2, ← hr]
        exact hc
      have hhdcl : cl.head? = some c := by
        rw [← hcl2head]
        exact hhd2
      have hclstrip :
          cl = rstripP pyWhitespace (lstripP pyWhitespace (collapseWS (replaceForbidden s))) := by
        rw [hcl]
        rfl
      have hclne : cl ≠ [] := by
        intro hnil
        rw [hnil] at hhdcl
        simp at hhdcl
      rw [hclstrip] at hhdcl hclne
      rw [head?_rstripP hclne] at hhdcl
      have hdw := List.head?_dropWhile_not pyWhitespace (collapseWS (replaceForbidden s))
      unfold lstripP at hhdcl
      rw [hhdcl] at hdw
      simpa using hdw
    · intro c hc
      exact rstripP_getLast? (hr ▸ hc)
    · have h2 : cl2.length ≤ 200 := by
        rw [hcl2]
        by_cases h200 : 200 < cl.length
        · rw [if_pos h200]
          calc (rstripP pyWhitespace (cl.take 200)).length
              ≤ (cl.take 200).length := length_rstripP_le _ _
            _ ≤ 200 := by simp
        · rw [if_neg h200]
          omega
      calc r.length ≤ cl2.length := hr ▸ length_rstripP_le _ _
        _ ≤ 200 := h2

/-! ### Decimal rendering of numbers, dates, and the strftime-produced titles -/

def digitChar : Nat → Char
  | 0 => '0'
  | 1 => '1'
  | 2 => '2'
  | 3 => '3'
  | 4 => '4'
  | 5 => '5'
  | 6 => '6'
  | 7 => '7'
  | 8 => '8'
  | _ => '9'

def digitChars : Str := ['0', '1', '2', '3', '4', '5', '6', '7', '8', '9']

theorem digitChar_mem (k : Nat) : digitChar k ∈ digitChars := by
  unfold digitChar
  split <;> simp [digitChars]

/-- Fuelled decimal digit expansion; the fuel only needs to exceed the number. -/
def natDigitsAux : Nat → Nat → Str
  | 0, _ => []
  | fuel + 1, n =>
    if n < 10 then [digitChar n]
    else natDigitsAux fuel (n / 10) ++ [digitChar (n % 10)]

/-- The decimal digits of `n`, most significant first (as `"%d" % n`). -/
def natDigits (n : Nat) : Str := natDigitsAux (n + 1) n

theorem natDigitsAux_mem {c : Char} :
    ∀ {fuel n : Nat}, c ∈ natDigitsAux fuel n → c ∈ digitChars := by
  intro fuel
  induction fuel with
  | zero => intro n h; simp [natDigitsAux] at h
  | succ f ih =>
    intro n h
    unfold natDigitsAux at h
    by_cases hn : n < 10
    · rw [if_pos hn] at h
      rcases List.mem_cons.mp h with h | h
      · subst h; exact digitChar_mem n
      · simp at h
    · rw [if_neg hn] at h
      rcases List.mem_append.mp h with h | h
      · exact ih h
      · rcases List.mem_cons.mp h with h | h
        · subst h; exact digitChar_mem (n % 10)
        · simp at h

theorem natDigits_mem {c : Char} {n : Nat} (h : c ∈ natDigits n) : c ∈ digitChars :=
  natDigitsAux_mem h

theorem natDigitsAux_ne_nil (f n : Nat) : natDigitsAux (f + 1) n ≠ [] := by
  unfold natDigitsAux
  by_cases hn : n < 10
  · rw [if_pos hn]
    simp
  · rw [if_neg hn]
    simp

theorem natDigits_ne_nil (n : Nat) : natDigits n ≠ [] :=
  natDigitsAux_ne_nil n n

theorem natDigitsAux_getLast (f n : Nat) :
    ∃ c ∈ digitChars, (natDigitsAux (f + 1) n).getLast? = some c := by
  unfold natDigitsAux
  by_cases hn : n < 10
  · rw [if_pos hn]
    exact ⟨digitChar n, digitChar_mem n, rfl⟩
  · rw [if_neg hn]
    exact ⟨digitChar (n % 10), digitChar_mem (n % 10), List.getLast?_concat _⟩

theorem natDigits_getLast (n : Nat) :
    ∃ c ∈ digitChars, (natDigits n).getLast? = some c :=
  natDigitsAux_getLast n n

theorem natDigitsAux_length_le :
    ∀ fuel {k n : Nat}, n < 10 ^ k → 1 ≤ k → (natDigitsAux fuel n).length ≤ k := by
  intro fuel
  induction fuel with
  | zero =>
    intro k n _ _
    simp [natDigitsAux]
  | succ f ih =>
    intro k n hn hk
    unfold natDigitsAux
    by_cases h10 : n < 10
    · rw [if_pos h10]
      simpa using hk
    · rw [if_neg h10]
      rw [List.length_append]
      have hk2 : 2 ≤ k := by
        by_contra hcon
        have : k = 1 := by omega
        subst this
        simp at hn
        omega
      have hdiv : n / 10 < 10 ^ (k - 1) := by
        apply Nat.div_lt_of_lt_mul
        have : 10 * 10 ^ (k - 1) = 10 ^ k := by
          rw [← pow_succ']
          congr 1
          omega
        omega
      have := ih hdiv (by omega)
      simp only [List.length_singleton]
      omega

theorem natDigits_length_le {k n : Nat} (hn : n < 10 ^ k) (hk : 1 ≤ k) :
    (natDigits n).length ≤ k :=
  natDigitsAux_length_le (n + 1) hn hk

/-- Zero-padded decimal rendering, as Python `"%0wd" % n` (and `%Y` with
`w = 4`, `%m`/`%d`/`%H`/`%M`/`%S` with `w = 2`). -/
def padNum (w n : Nat) : Str :=
  List.replicate (w - (natDigits n).length) '0' ++ natDigits n

theorem padNum_mem {w n : Nat} {c : Char} (h : c ∈ padNum w n) : c ∈ digitChars := by
  unfold padNum at h
  rcases List.mem_append.mp h with h | h
  · rw [List.eq_of_mem_replicate h]
    simp [digitChars]
  · exact natDigits_mem h

theorem padNum_ne_nil (w n : Nat) : padNum w n ≠ [] := by
  unfold padNum
  intro h
  rcases List.append_eq_nil.mp h with ⟨_, h2⟩
  exact natDigits_ne_nil n h2

theorem padNum_getLast (w n : Nat) :
    ∃ c ∈ digitChars, (padNum w n).getLast? = some c := by
  obtain ⟨c, hc, hl⟩ := natDigits_getLast n
  exact ⟨c, hc, by rw [padNum, List.getLast?_append_of_ne_nil _ (natDigits_ne_nil n)]; exact hl⟩

theorem padNum_length {w n : Nat} (hn : n < 10 ^ w) (hw : 1 ≤ w) :
    (padNum w n).length = w := by
  unfold padNum
  rw [List.length_append, List.length_replicate]
  have := natDigits_length_le hn hw
  omega

theorem digit_not_special {c : Char} (h : c ∈ digitChars) :
    forbiddenChar c = false ∧ pyWhitespace c = false ∧ dotOrSpace c = false := by
  simp only [digitChars, List.mem_cons, List.not_mem_nil, or_false] at h
  rcases h with rfl | rfl | rfl | rfl | rfl | rfl | rfl | rfl | rfl | rfl <;> decide

/-- A date-time as captured by `datetime.now()`; the fields of genuine dates
satisfy `boundedFields` below with a large margin. -/
structure DateStamp where
  year : Nat
  month : Nat
  day : Nat
  hour : Nat
  minute : Nat
  second : Nat

/-- Loose bounds that any real calendar date satisfies. -/
def DateStamp.boundedFields (d : DateStamp) : Prop :=
  d.year < 10000 ∧ d.month < 100 ∧ d.day < 100 ∧
  d.hour < 100 ∧ d.minute < 100 ∧ d.second < 100

/-- strftime `%Y-%m-%d`. -/
def fmtDate (d : DateStamp) : Str :=
  padNum 4 d.year ++ ['-'] ++ padNum 2 d.month ++ ['-'] ++ padNum 2 d.day

/-- strftime `%H-%M-%S`. -/
def fmtTime (d : DateStamp) : Str :=
  padNum 2 d.hour ++ ['-'] ++ padNum 2 d.minute ++ ['-'] ++ padNum 2 d.second

/-- The fallback `datetime.now().strftime("Chat_%Y-%m-%d_%H-%M-%S")` used by
`sanitize_filename` when the cleaned name is empty. -/
def fallbackStamp (d : DateStamp) : Str :=
  "Chat_".toList ++ fmtDate d ++ ['_'] ++ fmtTime d

/-- `sanitize_filename` as called at date-time `d`. -/
def sanitize_filename_at (d : DateStamp) (name : Str) : Str :=
  sanitize_filename (fallbackStamp d) name

/-- The title `f"Chat {now.strftime('%Y-%m-%d %H-%M-%S')}"` created by
`Operation_Chat_Controller.handle_new_chat`. -/
def newChatTitle (d : DateStamp) : Str :=
  "Chat ".toList ++ fmtDate d ++ [' '] ++ fmtTime d

/-- The title `f"Chat {timestamp}"` (timestamp `%Y-%m-%d_%H-%M-%S`) created by
`Operation_Chat_Controller._ensure_chat_file`. -/
def ensureChatTitle (d : DateStamp) : Str :=
  "Chat ".toList ++ fmtDate d ++ ['_'] ++ fmtTime d

theorem fmtDate_mem {d : DateStamp} {c : Char} (h : c ∈ fmtDate d) :
    c ∈ digitChars ∨ c = '-' := by
  unfold fmtDate at h
  rcases List.mem_append.mp h with h | h
  · rcases List.mem_append.mp h with h | h
    · rcases List.mem_append.mp h with h | h
      · rcases List.mem_append.mp h with h | h
        · exact Or.inl (padNum_mem h)
        · simp at h; exact Or.inr h
      · exact Or.inl (padNum_mem h)
    · simp at h; exact Or.inr h
  · exact Or.inl (padNum_mem h)

theorem fmtTime_mem {d : DateStamp} {c : Char} (h : c ∈ fmtTime d) :
    c ∈ digitChars ∨ c = '-' := by
  unfold fmtTime at h
  rcases List.mem_append.mp h with h | h
  · rcases List.mem_append.mp h with h | h
    · rcases List.mem_append.mp h with h | h
      · rcases List.mem_append.mp h with h | h
        · exact Or.inl (padNum_mem h)
        · simp at h; exact Or.inr h
      · exact Or.inl (padNum_mem h)
    · simp at h; exact Or.inr h
  · exact Or.inl (padNum_mem h)

theorem fmtDate_nonws {d : DateStamp} {c : Char} (h : c ∈ fmtDate d) :
    pyWhitespace c = false := by
  rcases fmtDate_mem h with h | h
  · exact (digit_not_special h).2.1
  · subst h; decide

theorem fmtTime_nonws {d : DateStamp} {c : Char} (h : c ∈ fmtTime d) :
    pyWhitespace c = false := by
  rcases fmtTime_mem h with h | h
  · exact (digit_not_special h).2.1
  · subst h; decide

theorem fmtTime_ne_nil (d : DateStamp) : fmtTime d ≠ [] := by
  unfold fmtTime
  simp

theorem fmtDate_ne_nil (d : DateStamp) : fmtDate d ≠ [] := by
  unfold fmtDate
  simp

theorem fmtTime_getLast {d : DateStamp} {c : Char}
    (h : (fmtTime d).getLast? = some c) : c ∈ digitChars := by
  unfold fmtTime at h
  rw [List.getLast?_append_of_ne_nil _ (padNum_ne_nil 2 d.second)] at h
  obtain ⟨e, he, hl⟩ := padNum_getLast 2 d.second
  rw [hl] at h
  injection h with h
  subst h
  exact he

theorem fmtDate_length {d : DateStamp} (hb : d.boundedFields) :
    (fmtDate d).length = 10 := by
  obtain ⟨h1, h2, h3, _, _, _⟩ := hb
  unfold fmtDate
  simp only [List.length_append, List.length_singleton]
  rw [padNum_length (by simpa using h1) (by omega),
    padNum_length (by simpa using h2) (by omega),
    padNum_length (by simpa using h3) (by omega)]

theorem fmtTime_length {d : DateStamp} (hb : d.boundedFields) :
    (fmtTime d).length = 8 := by
  obtain ⟨_, _, _, h4, h5, h6⟩ := hb
  unfold fmtTime
  simp only [List.length_append, List.length_singleton]
  rw [padNum_length (by simpa using h4) (by omega),
    padNum_length (by simpa using h5) (by omega),
    padNum_length (by simpa using h6) (by omega)]

theorem fmtDate_head {d : DateStamp} {c : Char} (h : (fmtDate d).head? = some c) :
    pyWhitespace c = false :=
  fmtDate_nonws (mem_of_head? h)

theorem fmtTime_head {d : DateStamp} {c : Char} (h : (fmtTime d).head? = some c) :
    pyWhitespace c = false :=
  fmtTime_nonws (mem_of_head? h)

/-- All three strftime-shaped strings (`pre ++ date ++ sep ++ time`) satisfy
the `Sanitized` invariant, for any prefix and separator that are themselves
well behaved. -/
theorem stamp_sanitized (pre : Str) (sep : Char) (d : DateStamp)
    (hb : d.boundedFields)
    (hpre_ne : pre ≠ [])
    (hpre_mem : ∀ c ∈ pre, forbiddenChar c = false ∧ (pyWhitespace c = true → c = ' '))
    (hpre_head : ∀ c, pre.head? = some c → pyWhitespace c = false)
    (hpre_ntw : noTwoWS pre = true)
    (hpre_len : pre.length ≤ 10)
    (hsep_f : forbiddenChar sep = false)
    (hsep_ws : pyWhitespace sep = true → sep = ' ') :
    Sanitized (pre ++ fmtDate d ++ [sep] ++ fmtTime d) := by
  have hmem : ∀ c ∈ pre ++ fmtDate d ++ [sep] ++ fmtTime d,
      c ∈ pre ∨ c = sep ∨ c ∈ digitChars ∨ c = '-' := by
    intro c hc
    rcases List.mem_append.mp hc with hc | hc
    · rcases List.mem_append.mp hc with hc | hc
      · rcases List.mem_append.mp hc with hc | hc
        · exact Or.inl hc
        · rcases fmtDate_mem hc with hc | hc
          · exact Or.inr (Or.inr (Or.inl hc))
          · exact Or.inr (Or.inr (Or.inr hc))
      · simp at hc
        exact Or.inr (Or.inl hc)
    · rcases fmtTime_mem hc with hc | hc
      · exact Or.inr (Or.inr (Or.inl hc))
      · exact Or.inr (Or.inr (Or.inr hc))
  constructor
  · intro h
    have := List.append_eq_nil.mp h
    exact fmtTime_ne_nil d this.2
  · intro c hc
    rcases hmem c hc with h | h | h | h
    · exact (hpre_mem c h).1
    · subst h; exact hsep_f
    · exact (digit_not_special h).1
    · subst h; decide
  · intro c hc hw
    rcases hmem c hc with h | h | h | h
    · exact (hpre_mem c h).2 hw
    · subst h; exact hsep_ws hw
    · rw [(digit_not_special h).2.1] at hw; cases hw
    · subst h; simp [pyWhitespace] at hw
  · have h1 : noTwoWS (pre ++ fmtDate d) = true :=
      noTwoWS_append hpre_ntw (noTwoWS_of_all_nonws (fun c hc => fmtDate_nonws hc))
        (Or.inr (fun c hc => fmtDate_head hc))
    have h2 : noTwoWS ((pre ++ fmtDate d) ++ [sep]) = true :=
      noTwoWS_append h1 rfl
        (Or.inl (fun c hc => by
          rw [List.getLast?_append_of_ne_nil _ (fmtDate_ne_nil d)] at hc
          exact fmtDate_nonws (List.mem_of_getLast?_eq_some hc)))
    exact noTwoWS_append h2 (noTwoWS_of_all_nonws (fun c hc => fmtTime_nonws hc))
      (Or.inr (fun c hc => fmtTime_head hc))
  · intro c hc
    rw [head?_append_left _ (by simp [hpre_ne]), head?_append_left _ (by simp [hpre_ne]),
      head?_append_left _ hpre_ne] at hc
    exact hpre_head c hc
  · intro c hc
    rw [List.getLast?_append_of_ne_nil _ (fmtTime_ne_nil d)] at hc
    exact (digit_not_special (fmtTime_getLast hc)).2.2
  · simp only [List.length_append, List.length_singleton,
      fmtDate_length hb, fmtTime_length hb]
    omega

theorem chatPrefix_facts :
    ∀ c ∈ ("Chat ".toList : Str), forbiddenChar c = false ∧ (pyWhitespace c = true → c = ' ') := by
  decide

theorem chatPrefixU_facts :
    ∀ c ∈ ("Chat_".toList : Str), forbiddenChar c = false ∧ (pyWhitespace c = true → c = ' ') := by
  decide

theorem fallbackStamp_sanitized {d : DateStamp} (hb : d.boundedFields) :
    Sanitized (fallbackStamp d) := by
  apply stamp_sanitized _ _ _ hb
  · decide
  · exact chatPrefixU_facts
  · intro c hc
    have : c = 'C' := by
      have h0 : (("Chat_".toList : Str)).head? = some 'C' := rfl
      rw [h0] at hc
      injection hc with hc
      exact hc.symm
    subst this
    decide
  · decide
  · decide
  · decide
  · intro hw
    simp [pyWhitespace] at hw

theorem newChatTitle_sanitized {d : DateStamp} (hb : d.boundedFields) :
    Sanitized (newChatTitle d) := by
  apply stamp_sanitized _ _ _ hb
  · decide
  · exact chatPrefix_facts
  · intro c hc
    have : c = 'C' := by
      have h0 : (("Chat ".toList : Str)).head? = some 'C' := rfl
      rw [h0] at hc
      injection hc with hc
      exact hc.symm
    subst this
    decide
  · decide
  · decide
  · decide
  · intro _
    rfl

theorem ensureChatTitle_sanitized {d : DateStamp} (hb : d.boundedFields) :
    Sanitized (ensureChatTitle d) := by
  apply stamp_sanitized _ _ _ hb
  · decide
  · exact chatPrefix_facts
  · intro c hc
    have : c = 'C' := by
      have h0 : (("Chat ".toList : Str)).head? = some 'C' := rfl
      rw [h0] at hc
      injection hc with hc
      exact hc.symm
    subst this
    decide
  · decide
  · decide
  · decide
  · intro hw
    simp [pyWhitespace] at hw

/-- C10.  `sanitize_filename` is idempotent: applying it a second time (at any
later date `d2`) to a sanitized name returns the name unchanged, because every
output is non-empty, free of forbidden characters, has only single internal
spaces, and ends in neither a space nor a dot.  The date bounds only constrain
the timestamp fallback to fields any `datetime.now()` satisfies. -/
theorem sanitize_filename_idem (d1 d2 : DateStamp) (s : Str)
    (hb : d1.boundedFields) :
    sanitize_filename_at d2 (sanitize_filename_at d1 s) = sanitize_filename_at d1 s :=
  sanitize_fixed (sanitize_output (fallbackStamp_sanitized hb) s) _

/-- Witness for `sanitize_filename_idem` at a concrete date and name. -/
theorem sanitize_filename_idem_witness :
    (DateStamp.mk 2025 11 23 10 30 0).boundedFields ∧
    sanitize_filename_at (DateStamp.mk 2026 1 2 3 4 5)
        (sanitize_filename_at (DateStamp.mk 2025 11 23 10 30 0) ['a', '?', 'b', '.']) =
      sanitize_filename_at (DateStamp.mk 2025 11 23 10 30 0) ['a', '?', 'b', '.'] :=
  ⟨by constructor <;> simp [DateStamp.boundedFields],
    sanitize_filename_idem (DateStamp.mk 2025 11 23 10 30 0) (DateStamp.mk 2026 1 2 3 4 5)
      ['a', '?', 'b', '.'] (by constructor <;> simp [DateStamp.boundedFields])⟩

/-! ### JSON documents and per-folder directory listings -/

/-- Parsed JSON values (numbers are irrelevant to the claims and kept as
integers). -/
inductive Json where
  | null : Json
  | bool (b : Bool) : Json
  | num (n : Int) : Json
  | str (s : Str) : Json
  | arr (elems : List Json) : Json
  | obj (members : List (Str × Json)) : Json

/-- Is the document a JSON object (a Python `dict`)? -/
def Json.isObj : Json → Bool
  | Json.obj _ => true
  | _ => false

/-- Lookup of a key in a JSON object member list (Python `dict` access on the
parsed document; keys written by this program are distinct). -/
def lookupKV (kvs : List (Str × Json)) (k : Str) : Option Json :=
  (kvs.find? (fun p => decide (p.1 = k))).map (fun p => p.2)

/-- `data.get(k)` for a parsed document: `none` when the document is not an
object or lacks the key. -/
def Json.getField : Json → Str → Option Json
  | Json.obj kvs, k => lookupKV kvs k
  | _, _ => none

/-- The contents of one folder directory: file names paired with their parsed
JSON contents; `none` records a file whose contents do not parse as JSON. -/
abbrev DirListing := List (Str × Option Json)

def fileExists (files : DirListing) (name : Str) : Bool :=
  files.any (fun p => decide (p.1 = name))

/-- Writing (creating or overwriting) a file with a JSON document. -/
def writeFile (files : DirListing) (name : Str) (content : Json) : DirListing :=
  if fileExists files name then
    files.map (fun p => if p.1 = name then (name, some content) else p)
  else files ++ [(name, some content)]

def titleKey : Str := "title".toList

def folderKey : Str := "folder".toList

def messagesKey : Str := "messages".toList

def jsonExt : Str := ".json".toList

/-- `Path.stem` for a name that ends in `.json`. -/
def stemOf (name : Str) : Str := name.take (name.length - 5)

theorem stemOf_ext (x : Str) : stemOf (x ++ jsonExt) = x := by
  unfold stemOf
  rw [List.length_append]
  have h5 : (jsonExt : Str).length = 5 := rfl
  rw [h5, Nat.add_sub_cancel]
  exact List.take_left x jsonExt

/-! ### The chat-file writers -/

/-- Disk effect of `Slide_Side_Panel.save_chat_to_folder` with
`save_json=True`, called at date `d` (the date fixes the sanitizer fallback).
Returns the updated listing and the name of the file written:
`<sanitize_filename(title)>.json` with an object holding the title and an
empty message list. -/
def save_chat_to_folder (d : DateStamp) (title : Str) (files : DirListing) :
    DirListing × Str :=
  let safe_stem := sanitize_filename_at d title
  (writeFile files (safe_stem ++ jsonExt)
    (Json.obj [(titleKey, Json.str title), (messagesKey, Json.arr [])]),
   safe_stem ++ jsonExt)

/-- `Operation_Chat_Controller.handle_new_chat` at date `d`: writes
`f"Chat {now:%Y-%m-%d %H-%M-%S}.json"` with title, folder and an empty
message list, and makes it the current chat file. -/
def handle_new_chat (d : DateStamp) (folderName : Str) (files : DirListing) :
    DirListing × Str :=
  let chat_title := newChatTitle d
  (writeFile files (chat_title ++ jsonExt)
    (Json.obj [(titleKey, Json.str chat_title), (folderKey, Json.str folderName),
      (messagesKey, Json.arr [])]),
   chat_title ++ jsonExt)

/-- `Operation_Chat_Controller._ensure_chat_file` at date `d`: keeps an
existing current chat file, otherwise creates
`f"Chat {now:%Y-%m-%d_%H-%M-%S}.json"` with title, folder and empty messages. -/
def ensure_chat_file (current : Option Str) (d : DateStamp) (folderName : Str)
    (files : DirListing) : DirListing × Str :=
  match current with
  | some path =>
    if fileExists files path then (files, path)
    else
      (writeFile files (ensureChatTitle d ++ jsonExt)
        (Json.obj [(titleKey, Json.str (ensureChatTitle d)),
          (folderKey, Json.str folderName), (messagesKey, Json.arr [])]),
       ensureChatTitle d ++ jsonExt)
  | none =>
    (writeFile files (ensureChatTitle d ++ jsonExt)
      (Json.obj [(titleKey, Json.str (ensureChatTitle d)),
        (folderKey, Json.str folderName), (messagesKey, Json.arr [])]),
     ensureChatTitle d ++ jsonExt)

/-- Reading a file from a folder listing (`none` = no such file). -/
def readFile (files : DirListing) (name : Str) : Option (Option Json) :=
  (files.find? (fun p => decide (p.1 = name))).map (fun p => p.2)

theorem readFile_writeFile (files : DirListing) (name : Str) (c : Json) :
    readFile (writeFile files name c) name = some (some c) := by
  unfold writeFile
  by_cases h : fileExists files name = true
  · rw [if_pos h]
    induction files with
    | nil => simp [fileExists] at h
    | cons p t ih =>
      by_cases hp : p.1 = name
      · unfold readFile
        rw [List.map_cons, if_pos hp, List.find?_cons_of_pos _ (by simp)]
        rfl
      · have ht : fileExists t name = true := by
          unfold fileExists at h ⊢
          rw [List.any_cons] at h
          rcases Bool.or_eq_true_iff.mp h with h | h
          · exact absurd (of_decide_eq_true h) hp
          · exact h
        unfold readFile
        rw [List.map_cons, if_neg hp, List.find?_cons_of_neg _ (by simp [hp])]
        exact ih ht
  · rw [if_neg h]
    unfold readFile
    have hfn : files.find? (fun p => decide (p.1 = name)) = none := by
      rw [List.find?_eq_none]
      intro p hp hdec
      apply h
      unfold fileExists
      rw [List.any_eq_true]
      exact ⟨p, hp, hdec⟩
    rw [List.find?_append, hfn]
    simp [List.find?]

/-- C7.  Every chat file the program creates is named after the sanitized chat
title: `save_chat_to_folder` writes `<sanitize_filename(t)>.json`, and the two
controller writers (`handle_new_chat`, `_ensure_chat_file` in its creating
case) write timestamp titles that are fixed points of `sanitize_filename`, so
in all cases the stem of the written file equals `sanitize_filename` of the
chat's UI title and contains no forbidden filesystem characters. -/
theorem chat_file_stem_sanitized (d : DateStamp) (hb : d.boundedFields)
    (title folderName : Str) (files : DirListing) (current : Option Str)
    (hfresh : ∀ p, current = some p → fileExists files p = false) :
    (stemOf (save_chat_to_folder d title files).2 = sanitize_filename_at d title ∧
      ∀ c ∈ stemOf (save_chat_to_folder d title files).2, forbiddenChar c = false) ∧
    (stemOf (handle_new_chat d folderName files).2 =
        sanitize_filename_at d (newChatTitle d) ∧
      ∀ c ∈ stemOf (handle_new_chat d folderName files).2, forbiddenChar c = false) ∧
    (stemOf (ensure_chat_file current d folderName files).2 =
        sanitize_filename_at d (ensureChatTitle d) ∧
      ∀ c ∈ stemOf (ensure_chat_file current d folderName files).2,
        forbiddenChar c = false) := by
  have hsan : Sanitized (sanitize_filename_at d title) :=
    sanitize_output (fallbackStamp_sanitized hb) title
  have hnew : sanitize_filename_at d (newChatTitle d) = newChatTitle d :=
    sanitize_fixed (newChatTitle_sanitized hb) _
  have hens : sanitize_filename_at d (ensureChatTitle d) = ensureChatTitle d :=
    sanitize_fixed (ensureChatTitle_sanitized hb) _
  have hensure : (ensure_chat_file current d folderName files).2 =
      ensureChatTitle d ++ jsonExt := by
    cases current with
    | none => rfl
    | some p =>
      unfold ensure_chat_file
      dsimp only
      rw [hfresh p rfl]
      simp
  have hsave : (save_chat_to_folder d title files).2 =
      sanitize_filename_at d title ++ jsonExt := rfl
  refine ⟨⟨?_, ?_⟩, ⟨?_, ?_⟩, ?_, ?_⟩
  · rw [hsave, stemOf_ext]
  · rw [hsave, stemOf_ext]
    exact hsan.nf
  · rw [show (handle_new_chat d folderName files).2 = newChatTitle d ++ jsonExt from rfl,
      stemOf_ext, hnew]
  · rw [show (handle_new_chat d folderName files).2 = newChatTitle d ++ jsonExt from rfl,
      stemOf_ext]
    exact (newChatTitle_sanitized hb).nf
  · rw [hensure, stemOf_ext, hens]
  · rw [hensure, stemOf_ext]
    exact (ensureChatTitle_sanitized hb).nf

/-- Witness for `chat_file_stem_sanitized` at a concrete date and title. -/
theorem chat_file_stem_sanitized_witness :
    stemOf (save_chat_to_folder (DateStamp.mk 2025 11 23 10 30 0) ("a?b".toList) []).2 =
      sanitize_filename_at (DateStamp.mk 2025 11 23 10 30 0) ("a?b".toList) :=
  (chat_file_stem_sanitized (DateStamp.mk 2025 11 23 10 30 0)
    (by constructor <;> simp [DateStamp.boundedFields]) ("a?b".toList) ("F".toList) [] none
    (fun p hp => by cases hp)).1.1

/-! ### Chat history records, `_append_record` and `handle_open_chat_file` -/

/-- One chat message as kept in the controller's `chat_history`:
`{"role": .., "text": .., "images": ..}` plus an optional `"model"`. -/
structure ChatRecord where
  role : Str
  text : Str
  images : Option (List Str)
  model : Option Str

/-- JSON image list: Python `None` becomes `null`, a list of image sources
becomes an array of strings. -/
def imagesJson : Option (List Str) → Json
  | none => Json.null
  | some l => Json.arr (l.map Json.str)

def roleKey : Str := "role".toList

def textKey : Str := "text".toList

def imagesKey2 : Str := "images".toList

def modelKey : Str := "model".toList

/-- Serialization of one history entry as `_append_record` builds it
(`msg_data = {"role": role, **content}` with the `"model"` key added only when
a model name is passed). -/
def recordToJson (r : ChatRecord) : Json :=
  Json.obj ([(roleKey, Json.str r.role), (textKey, Json.str r.text),
    (imagesKey2, imagesJson r.images)] ++
    (match r.model with
     | none => []
     | some m => [(modelKey, Json.str m)]))

/-- The controller state relevant to persistence. -/
structure CtrlState where
  current_chat_file : Option Str
  chat_history : List ChatRecord

/-- `Operation_Chat_Controller._append_record`: when a current chat file is
set, append the record to the in-memory history and rewrite the file with the
whole history serialized as a top-level JSON array. -/
def append_record (st : CtrlState) (role text : Str) (images : Option (List Str))
    (modelName : Option Str) (files : DirListing) : CtrlState × DirListing :=
  match st.current_chat_file with
  | none => (st, files)
  | some path =>
    let hist := st.chat_history ++ [ChatRecord.mk role text images modelName]
    (CtrlState.mk (some path) hist,
     writeFile files path (Json.arr (hist.map recordToJson)))

/-- `msg.get(key, default)` restricted to string values (the records written
by this program store only strings under `"role"`, `"text"` and `"model"`). -/
def strOrDefault : Option Json → Str → Str
  | some (Json.str s), _ => s
  | _, dflt => dflt

/-- `msg.get("images", [])`: a missing key gives the empty list, a stored
`null` gives Python `None`, a stored array gives the list of its strings. -/
def imagesOrDefault : Option Json → Option (List Str)
  | none => some []
  | some Json.null => none
  | some (Json.arr xs) => some (xs.map (fun j =>
      match j with
      | Json.str s => s
      | _ => []))
  | some _ => some []

/-- The loop body of `handle_open_chat_file` rebuilding one `chat_history`
entry from a stored message; `currentModel` is `self.model`, the default for
the saved model name. -/
def readMsg (currentModel : Str) (j : Json) : ChatRecord :=
  ChatRecord.mk (strOrDefault (j.getField roleKey) ("user".toList))
    (strOrDefault (j.getField textKey) [])
    (imagesOrDefault (j.getField imagesKey2))
    (some (strOrDefault (j.getField modelKey) currentModel))

/-- `handle_open_chat_file` message extraction: a dict yields its
`"messages"` field (the program only stores arrays there), a top-level list is
the message list itself, anything else aborts the load. -/
def openMessages : Json → Option (List Json)
  | Json.obj kvs =>
    some (match lookupKV kvs messagesKey with
      | some (Json.arr ms) => ms
      | _ => [])
  | Json.arr ms => some ms
  | _ => none

/-- The `chat_history` rebuilt by `handle_open_chat_file` from a parsed chat
file. -/
def loadChatHistory (currentModel : Str) (data : Json) : Option (List ChatRecord) :=
  (openMessages data).map (List.map (readMsg currentModel))

theorem imagesOrDefault_roundtrip (o : Option (List Str)) :
    imagesOrDefault (some (imagesJson o)) = o := by
  cases o with
  | none => rfl
  | some l =>
    show some ((l.map Json.str).map (fun j =>
      match j with
      | Json.str s => s
      | _ => [])) = some l
    congr 1
    rw [List.map_map]
    exact (List.map_congr_left (fun a _ => rfl)).trans (List.map_id' l)

theorem readMsg_recordToJson (cm : Str) (r : ChatRecord) :
    readMsg cm (recordToJson r) =
      ChatRecord.mk r.role r.text r.images (some (r.model.getD cm)) := by
  obtain ⟨role, text, images, model⟩ := r
  unfold readMsg
  have h1 : (recordToJson (ChatRecord.mk role text images model)).getField roleKey =
      some (Json.str role) := by
    cases model <;> rfl
  have h2 : (recordToJson (ChatRecord.mk role text images model)).getField textKey =
      some (Json.str text) := by
    cases model <;> rfl
  have h3 : (recordToJson (ChatRecord.mk role text images model)).getField imagesKey2 =
      some (imagesJson images) := by
    cases model <;> rfl
  rw [h1, h2, h3, imagesOrDefault_roundtrip]
  cases model with
  | none => rfl
  | some m => rfl

/-- C6.  Persistence round-trip: reading back a chat file just written by
`_append_record` (a top-level JSON array of the history) reconstructs the same
message sequence — same length and, per message in order, the same role, text
and images. -/
theorem append_open_roundtrip (cm : Str) (hist : List ChatRecord) :
    ∃ l, loadChatHistory cm (Json.arr (hist.map recordToJson)) = some l ∧
      l.length = hist.length ∧
      l.map ChatRecord.role = hist.map ChatRecord.role ∧
      l.map ChatRecord.text = hist.map ChatRecord.text ∧
      l.map ChatRecord.images = hist.map ChatRecord.images := by
  refine ⟨(hist.map recordToJson).map (readMsg cm), rfl, by simp, ?_, ?_, ?_⟩ <;>
    · rw [List.map_map, List.map_map]
      apply List.map_congr_left
      intro r _
      rw [Function.comp_apply, Function.comp_apply, readMsg_recordToJson]

/-! ### C1: what the chat file actually contains after each write -/

/-- A concrete date for the closed counterexamples and witnesses. -/
def demoDate : DateStamp := DateStamp.mk 2025 11 23 10 30 0

/-- C1 amended, proved: the two creation writers leave the file holding a JSON
object with the chat's title and its (empty) message list, while every
`_append_record` rewrites the file with the complete in-memory message list
serialized as a top-level JSON array — without the title. -/
theorem chat_file_contents (d : DateStamp) (folderName : Str) (files : DirListing)
    (st : CtrlState) (path : Str) (role text : Str) (images : Option (List Str))
    (modelName : Option Str) (hcur : st.current_chat_file = some path) :
    readFile (handle_new_chat d folderName files).1 (handle_new_chat d folderName files).2 =
      some (some (Json.obj [(titleKey, Json.str (newChatTitle d)),
        (folderKey, Json.str folderName), (messagesKey, Json.arr [])])) ∧
    readFile (ensure_chat_file none d folderName files).1
        (ensure_chat_file none d folderName files).2 =
      some (some (Json.obj [(titleKey, Json.str (ensureChatTitle d)),
        (folderKey, Json.str folderName), (messagesKey, Json.arr [])])) ∧
    readFile (append_record st role text images modelName files).2 path =
      some (some (Json.arr
        ((st.chat_history ++ [ChatRecord.mk role text images modelName]).map
          recordToJson))) := by
  refine ⟨readFile_writeFile _ _ _, readFile_writeFile _ _ _, ?_⟩
  unfold append_record
  rw [hcur]
  exact readFile_writeFile _ _ _

/-- Witness for `chat_file_contents` at a concrete state. -/
theorem chat_file_contents_witness :
    readFile (append_record (CtrlState.mk (some ("t.json".toList)) [])
        ("user".toList) ("hi".toList) none none [("t.json".toList, some (Json.obj []))]).2
      ("t.json".toList) =
      some (some (Json.arr
        [recordToJson (ChatRecord.mk ("user".toList) ("hi".toList) none none)])) :=
  (chat_file_contents demoDate ("F".toList) [("t.json".toList, some (Json.obj []))]
    (CtrlState.mk (some ("t.json".toList)) []) ("t.json".toList)
    ("user".toList) ("hi".toList) none none rfl).2.2

/-- C1 as stated is false: after `_append_record` the chat file contains a
top-level JSON array, not a JSON object holding the chat's title.  Concretely,
starting from a freshly created `t.json` and appending one user message, the
file's parsed content is an array (`isObj = false`). -/
theorem chat_file_object_counterexample :
    readFile (append_record (CtrlState.mk (some ("t.json".toList)) [])
        ("user".toList) ("hi".toList) none none
        [("t.json".toList, some (Json.obj [(titleKey, Json.str ("t".toList)),
          (messagesKey, Json.arr [])]))]).2
      ("t.json".toList) =
      some (some (Json.arr
        [recordToJson (ChatRecord.mk ("user".toList) ("hi".toList) none none)])) ∧
    Json.isObj (Json.arr
      [recordToJson (ChatRecord.mk ("user".toList) ("hi".toList) none none)]) = false := by
  constructor
  · rfl
  · rfl

/-! ### C2: robust chat-file resolution -/

/-- Python `str.lower()` (ASCII range; the stems compared here are ASCII). -/
def toLowerChar (c : Char) : Char :=
  if 65 ≤ c.toNat ∧ c.toNat ≤ 90 then Char.ofNat (c.toNat + 32) else c

def lowerStr (s : Str) : Str := s.map toLowerChar

/-- The last-resort check `data.get("title", "") == chat_title` on a parsed
chat file; unparseable files and non-dict documents are skipped. -/
def titleMatches (content : Option Json) (t : Str) : Bool :=
  match content with
  | some (Json.obj kvs) =>
    match lookupKV kvs titleKey with
    | some (Json.str s) => decide (s = t)
    | some _ => false
    | none => decide (t = [])
  | _ => false

/-- `Operation_Chat_Controller.resolve_chat_file`, relative to the folder
directory; `dir = none` models a folder path that does not exist (or is not a
directory).  Returns the name of the resolved file inside the folder. -/
def resolve_chat_file (dir : Option DirListing) (chat_title : Str) : Str :=
  match dir with
  | none => chat_title ++ jsonExt
  | some files =>
    if fileExists files (chat_title ++ jsonExt) then chat_title ++ jsonExt
    else if fileExists files (ctrl_sanitize chat_title ++ jsonExt) then
      ctrl_sanitize chat_title ++ jsonExt
    else
      match (files.filter (fun p => decide (jsonExt <:+ p.1))).find?
          (fun p => decide (lowerStr (ctrl_sanitize (stemOf p.1)) =
            lowerStr (ctrl_sanitize chat_title))) with
      | some p => p.1
      | none =>
        match (files.filter (fun p => decide (jsonExt <:+ p.1))).find?
            (fun p => titleMatches p.2 chat_title) with
        | some p => p.1
        | none => chat_title ++ jsonExt

/-- Does the resolved name denote an existing file? -/
def existsIn (dir : Option DirListing) (name : Str) : Bool :=
  match dir with
  | none => false
  | some files => fileExists files name

/-- One of the four resolution strategies applies: exact name, sanitized name,
case-insensitive sanitized stem, or embedded `"title"` field. -/
def strategyMatch (dir : Option DirListing) (chat_title : Str) : Bool :=
  match dir with
  | none => false
  | some files =>
    fileExists files (chat_title ++ jsonExt) ||
    fileExists files (ctrl_sanitize chat_title ++ jsonExt) ||
    (files.filter (fun p => decide (jsonExt <:+ p.1))).any
      (fun p => decide (lowerStr (ctrl_sanitize (stemOf p.1)) =
        lowerStr (ctrl_sanitize chat_title))) ||
    (files.filter (fun p => decide (jsonExt <:+ p.1))).any
      (fun p => titleMatches p.2 chat_title)

theorem fileExists_of_mem {files : DirListing} {p : Str × Option Json}
    (h : p ∈ files) : fileExists files p.1 = true := by
  unfold fileExists
  rw [List.any_eq_true]
  exact ⟨p, h, by simp⟩

theorem bool_eq_false {b : Bool} (h : ¬ b = true) : b = false := by
  cases b
  · rfl
  · exact absurd rfl h

/-- C2.  For every folder directory and chat title, `resolve_chat_file`
returns the name of an existing file whenever one of its four strategies
matches, and otherwise returns the (non-existing) default `<title>.json`;
in particular a chat whose on-disk name drifted from its UI title is still
resolved whenever one of the fuzzy strategies matches. -/
theorem resolve_chat_file_spec (dir : Option DirListing) (chat_title : Str) :
    (strategyMatch dir chat_title = true →
      existsIn dir (resolve_chat_file dir chat_title) = true) ∧
    (strategyMatch dir chat_title = false →
      resolve_chat_file dir chat_title = chat_title ++ jsonExt ∧
      existsIn dir (resolve_chat_file dir chat_title) = false) := by
  cases dir with
  | none =>
    constructor
    · intro h
      simp [strategyMatch] at h
    · intro _
      exact ⟨rfl, rfl⟩
  | some files =>
    have hsm : strategyMatch (some files) chat_title =
        (fileExists files (chat_title ++ jsonExt) ||
         fileExists files (ctrl_sanitize chat_title ++ jsonExt) ||
         (files.filter (fun p => decide (jsonExt <:+ p.1))).any
           (fun p => decide (lowerStr (ctrl_sanitize (stemOf p.1)) =
             lowerStr (ctrl_sanitize chat_title))) ||
         (files.filter (fun p => decide (jsonExt <:+ p.1))).any
           (fun p => titleMatches p.2 chat_title)) := rfl
    by_cases h1 : fileExists files (chat_title ++ jsonExt) = true
    · have hres : resolve_chat_file (some files) chat_title = chat_title ++ jsonExt := by
        unfold resolve_chat_file
        dsimp only
        rw [if_pos h1]
      rw [hres]
      constructor
      · intro _
        exact h1
      · intro h
        rw [hsm, h1] at h
        simp at h
    · by_cases h2 : fileExists files (ctrl_sanitize chat_title ++ jsonExt) = true
      · have hres : resolve_chat_file (some files) chat_title =
            ctrl_sanitize chat_title ++ jsonExt := by
          unfold resolve_chat_file
          dsimp only
          rw [if_neg h1, if_pos h2]
        rw [hres]
        constructor
        · intro _
          exact h2
        · intro h
          rw [hsm, h2] at h
          simp at h
      · cases h3 : (files.filter (fun p => decide (jsonExt <:+ p.1))).find?
            (fun p => decide (lowerStr (ctrl_sanitize (stemOf p.1)) =
              lowerStr (ctrl_sanitize chat_title))) with
        | some p =>
          have hres : resolve_chat_file (some files) chat_title = p.1 := by
            unfold resolve_chat_file
            dsimp only
            rw [if_neg h1, if_neg h2, h3]
          have hmem : p ∈ files :=
            (List.mem_filter.mp (List.mem_of_find?_eq_some h3)).1
          rw [hres]
          constructor
          · intro _
            exact fileExists_of_mem hmem
          · intro h
            have hpred := List.find?_some h3
            have hany : (files.filter (fun p => decide (jsonExt <:+ p.1))).any
                (fun p => decide (lowerStr (ctrl_sanitize (stemOf p.1)) =
                  lowerStr (ctrl_sanitize chat_title))) = true :=
              List.any_eq_true.mpr
                ⟨p, List.mem_of_find?_eq_some h3, hpred⟩
            rw [hsm, hany] at h
            simp at h
        | none =>
          cases h4 : (files.filter (fun p => decide (jsonExt <:+ p.1))).find?
              (fun p => titleMatches p.2 chat_title) with
          | some p =>
            have hres : resolve_chat_file (some files) chat_title = p.1 := by
              unfold resolve_chat_file
              dsimp only
              rw [if_neg h1, if_neg h2, h3, h4]
            have hmem : p ∈ files :=
              (List.mem_filter.mp (List.mem_of_find?_eq_some h4)).1
            rw [hres]
            constructor
            · intro _
              exact fileExists_of_mem hmem
            · intro h
              have hpred := List.find?_some h4
              have hany : (files.filter (fun p => decide (jsonExt <:+ p.1))).any
                  (fun p => titleMatches p.2 chat_title) = true :=
                List.any_eq_true.mpr
                  ⟨p, List.mem_of_find?_eq_some h4, hpred⟩
              rw [hsm, hany] at h
              simp at h
          | none =>
            have hres : resolve_chat_file (some files) chat_title =
                chat_title ++ jsonExt := by
              unfold resolve_chat_file
              dsimp only
              rw [if_neg h1, if_neg h2, h3, h4]
            have hany3 : (files.filter (fun p => decide (jsonExt <:+ p.1))).any
                (fun p => decide (lowerStr (ctrl_sanitize (stemOf p.1)) =
                  lowerStr (ctrl_sanitize chat_title))) = false := by
              rw [List.any_eq_false]
              intro p hp hcon
              have := List.find?_eq_none.mp h3 p hp
              exact this hcon
            have hany4 : (files.filter (fun p => decide (jsonExt <:+ p.1))).any
                (fun p => titleMatches p.2 chat_title) = false := by
              rw [List.any_eq_false]
              intro p hp hcon
              have := List.find?_eq_none.mp h4 p hp
              exact this hcon
            constructor
            · intro h
              rw [hsm, bool_eq_false h1, bool_eq_false h2, hany3, hany4] at h
              simp at h
            · intro _
              rw [hres]
              exact ⟨rfl, bool_eq_false h1⟩

/-- Witness for `resolve_chat_file_spec`: a chat titled `hello` whose on-disk
file drifted to `HELLO.json` (with a matching embedded title) is still
resolved to an existing file via the case-insensitive stem strategy. -/
theorem resolve_chat_file_spec_witness :
    strategyMatch
        (some [(("HELLO.json".toList : Str),
          some (Json.obj [(titleKey, Json.str ("hello".toList))]))])
        ("hello".toList) = true ∧
    existsIn
        (some [(("HELLO.json".toList : Str),
          some (Json.obj [(titleKey, Json.str ("hello".toList))]))])
        (resolve_chat_file
          (some [(("HELLO.json".toList : Str),
            some (Json.obj [(titleKey, Json.str ("hello".toList))]))])
          ("hello".toList)) = true :=
  ⟨by decide,
    (resolve_chat_file_spec
      (some [(("HELLO.json".toList : Str),
        some (Json.obj [(titleKey, Json.str ("hello".toList))]))])
      ("hello".toList)).1 (by decide)⟩

/-! ### C3: renaming the chat file on disk -/

/-- The file `Slide_Side_Panel.rename_chat` picks to rename: exact old name,
sanitized old name, then a normalized-stem match (against the sanitized new
OR old stem), and finally the embedded `"title"` field. -/
def chooseRenameSource (files : DirListing) (oldTitle newTitle fb : Str) :
    Option Str :=
  match [oldTitle ++ jsonExt, sanitize_filename fb oldTitle ++ jsonExt].find?
      (fun c => fileExists files c) with
  | some c => some c
  | none =>
    match (files.filter (fun p => decide (jsonExt <:+ p.1))).find? (fun p =>
        decide (lowerStr (sanitize_filename fb (stemOf p.1)) =
          lowerStr (sanitize_filename fb newTitle)) ||
        decide (lowerStr (sanitize_filename fb (stemOf p.1)) =
          lowerStr (sanitize_filename fb oldTitle))) with
    | some p => some p.1
    | none =>
      ((files.filter (fun p => decide (jsonExt <:+ p.1))).find?
        (fun p => titleMatches p.2 oldTitle)).map (fun p => p.1)

/-- `Path.rename`: the source entry disappears and the destination receives
its contents (replacing any previous entry under that name). -/
def renameFile (files : DirListing) (src dst : Str) : DirListing :=
  match files.find? (fun p => decide (p.1 = src)) with
  | none => files
  | some p =>
    files.filter (fun q => !(decide (q.1 = src)) && !(decide (q.1 = dst))) ++ [(dst, p.2)]

/-- `Slide_Side_Panel.rename_chat` on the folder directory (`none` = the
folder does not exist on disk): find the source file, rename it to
`<sanitize_filename(new_title)>.json`, falling back to a timestamp-suffixed
name when a different file already occupies the target. -/
def rename_chat (dir : Option DirListing) (oldTitle newTitle ts fb : Str) :
    Option DirListing :=
  match dir with
  | none => none
  | some files =>
    match chooseRenameSource files oldTitle newTitle fb with
    | none => some files
    | some chosen =>
      if fileExists files (sanitize_filename fb newTitle ++ jsonExt) &&
          decide (sanitize_filename fb newTitle ++ jsonExt = chosen) then some files
      else if fileExists files (sanitize_filename fb newTitle ++ jsonExt) then
        some (renameFile files chosen
          (sanitize_filename fb newTitle ++ ['_'] ++ ts ++ jsonExt))
      else some (renameFile files chosen (sanitize_filename fb newTitle ++ jsonExt))

theorem find?_filter_of_imp {l : DirListing} {pred keep : Str × Option Json → Bool}
    (h : ∀ q, pred q = true → keep q = true) :
    (l.filter keep).find? pred = l.find? pred := by
  induction l with
  | nil => rfl
  | cons q t ih =>
    by_cases hq : pred q = true
    · rw [List.filter_cons, h q hq]
      simp only [if_true]
      rw [List.find?_cons_of_pos _ hq, List.find?_cons_of_pos _ hq]
    · rw [List.filter_cons]
      cases hk : keep q
      · simp only [Bool.false_eq_true, if_false]
        rw [List.find?_cons_of_neg _ hq]
        exact ih
      · simp only [if_true]
        rw [List.find?_cons_of_neg _ hq, List.find?_cons_of_neg _ hq]
        exact ih

/-- Renaming does not touch any file other than the source and destination. -/
theorem readFile_renameFile_other {files : DirListing} {src dst other : Str}
    (hs : other ≠ src) (hd : other ≠ dst) :
    readFile (renameFile files src dst) other = readFile files other := by
  unfold renameFile
  cases files.find? (fun p => decide (p.1 = src)) with
  | none => rfl
  | some p =>
    unfold readFile
    rw [List.find?_append, find?_filter_of_imp (fun q hq => by
      have : q.1 = other := of_decide_eq_true hq
      subst this
      simp [hs, hd])]
    cases hfo : files.find? (fun q => decide (q.1 = other)) with
    | some q => rfl
    | none =>
      simp only [Option.none_or]
      rw [List.find?_cons_of_neg _ (by
        simp only [decide_eq_true_eq]
        exact fun h => hd h.symm), List.find?_nil]

/-- C3.  What a committed rename does on disk: with no folder or no matching
file nothing changes; if the found file already carries the target name the
listing is unchanged; if the target name is free the file is renamed to
`<sanitize_filename(new)>.json`; and if a different file occupies the target,
the rename goes to a timestamp-suffixed name and the occupying file's contents
are untouched. -/
theorem rename_chat_spec (files : DirListing) (oldTitle newTitle ts fb : Str) :
    (rename_chat none oldTitle newTitle ts fb = none) ∧
    (chooseRenameSource files oldTitle newTitle fb = none →
      rename_chat (some files) oldTitle newTitle ts fb = some files) ∧
    (∀ chosen, chooseRenameSource files oldTitle newTitle fb = some chosen →
      (fileExists files (sanitize_filename fb newTitle ++ jsonExt) = true →
        sanitize_filename fb newTitle ++ jsonExt = chosen →
        rename_chat (some files) oldTitle newTitle ts fb = some files) ∧
      (fileExists files (sanitize_filename fb newTitle ++ jsonExt) = false →
        rename_chat (some files) oldTitle newTitle ts fb =
          some (renameFile files chosen (sanitize_filename fb newTitle ++ jsonExt))) ∧
      (fileExists files (sanitize_filename fb newTitle ++ jsonExt) = true →
        ¬ (sanitize_filename fb newTitle ++ jsonExt = chosen) →
        rename_chat (some files) oldTitle newTitle ts fb =
          some (renameFile files chosen
            (sanitize_filename fb newTitle ++ ['_'] ++ ts ++ jsonExt)) ∧
        readFile (renameFile files chosen
            (sanitize_filename fb newTitle ++ ['_'] ++ ts ++ jsonExt))
            (sanitize_filename fb newTitle ++ jsonExt) =
          readFile files (sanitize_filename fb newTitle ++ jsonExt))) := by
  refine ⟨rfl, ?_, ?_⟩
  · intro h
    unfold rename_chat
    dsimp only
    rw [h]
  · intro chosen hch
    refine ⟨?_, ?_, ?_⟩
    · intro hex heq
      unfold rename_chat
      dsimp only
      rw [hch]
      dsimp only
      rw [if_pos (by rw [hex, decide_eq_true heq]; rfl)]
    · intro hex
      unfold rename_chat
      dsimp only
      rw [hch]
      dsimp only
      rw [if_neg (by rw [hex]; simp), if_neg (by rw [hex]; simp)]
    · intro hex hne
      constructor
      · unfold rename_chat
        dsimp only
        rw [hch]
        dsimp only
        rw [if_neg (by rw [hex, decide_eq_false hne]; simp), if_pos hex]
      · apply readFile_renameFile_other
        · exact hne
        · intro hcon
          have hlen := congrArg List.length hcon
          simp only [List.length_append, List.length_singleton] at hlen
          omega

/-- Witness for `rename_chat_spec`: renaming the chat `a` to `b` moves
`a.json` to `b.json`. -/
theorem rename_chat_spec_witness :
    rename_chat (some [(("a.json".toList : Str), some (Json.obj []))])
        ("a".toList) ("b".toList) ("20250101000000".toList) ("FB".toList) =
      some (renameFile [(("a.json".toList : Str), some (Json.obj []))]
        ("a.json".toList) ("b.json".toList)) :=
  (((rename_chat_spec [(("a.json".toList : Str), some (Json.obj []))]
      ("a".toList) ("b".toList) ("20250101000000".toList) ("FB".toList)).2.2
    ("a.json".toList) (by decide)).2.1 (by decide))

/-! ### C4: deleting chats and folders -/

/-- In-memory item list (chat titles) of one folder together with the folder's
directory listing on disk. -/
structure FolderView where
  items : List Str
  files : DirListing

/-- Python `list.remove`: drop the first occurrence. -/
def removeFirst (l : List Str) (t : Str) : List Str :=
  match l with
  | [] => []
  | x :: r => if x = t then r else x :: removeFirst r t

/-- `Path.unlink`. -/
def deleteFile (files : DirListing) (name : Str) : DirListing :=
  files.filter (fun p => !(decide (p.1 = name)))

/-- `Slide_Side_Panel.delete_chat` for an item of this folder: remove the item
from the in-memory list, then delete `<title>.json` if it exists, else
`<sanitize_filename(title)>.json` if that exists, else nothing. -/
def delete_chat (pf : FolderView) (title fb : Str) : FolderView :=
  if pf.items.any (fun x => decide (x = title)) then
    FolderView.mk (removeFirst pf.items title)
      (if fileExists pf.files (title ++ jsonExt) then
        deleteFile pf.files (title ++ jsonExt)
      else if fileExists pf.files (sanitize_filename fb title ++ jsonExt) then
        deleteFile pf.files (sanitize_filename fb title ++ jsonExt)
      else pf.files)
  else pf

/-- The side panel's model across folders: folder name to in-memory chat
items, and the storage root on disk: folder name to directory listing. -/
structure PanelState where
  folders : List (Str × List Str)
  disk : List (Str × DirListing)

/-- `Slide_Side_Panel.delete_folder`: pop the folder (with all its chat items)
from the in-memory model and `shutil.rmtree` its directory when present. -/
def delete_folder (st : PanelState) (name : Str) : PanelState :=
  if st.folders.any (fun p => decide (p.1 = name)) then
    PanelState.mk (st.folders.filter (fun p => !(decide (p.1 = name))))
      (if st.disk.any (fun p => decide (p.1 = name)) then
        st.disk.filter (fun p => !(decide (p.1 = name)))
      else st.disk)
  else st

theorem any_filter_not {α : Type} (l : List α) (pred : α → Bool) :
    (l.filter (fun x => !(pred x))).any pred = false := by
  rw [List.any_eq_false]
  intro x hx
  have := (List.mem_filter.mp hx).2
  intro hcon
  rw [hcon] at this
  simp at this

/-- C4 amended, proved.  `delete_folder` removes the folder and all its chat
items from the in-memory model and its whole directory from disk; and
`delete_chat` removes the item from the folder's in-memory list but deletes
the on-disk file only under its exact or sanitized title name — a chat file
under any other (drifted) name is left on disk. -/
theorem delete_spec (st : PanelState) (pf : FolderView) (name title fb : Str)
    (hmem : pf.items.any (fun x => decide (x = title)) = true)
    (hfold : st.folders.any (fun p => decide (p.1 = name)) = true) :
    ((delete_folder st name).folders.any (fun p => decide (p.1 = name)) = false ∧
     (delete_folder st name).disk.any (fun p => decide (p.1 = name)) = false) ∧
    ((delete_chat pf title fb).items = removeFirst pf.items title ∧
     (fileExists pf.files (title ++ jsonExt) = true →
       (delete_chat pf title fb).files = deleteFile pf.files (title ++ jsonExt)) ∧
     (fileExists pf.files (title ++ jsonExt) = false →
      fileExists pf.files (sanitize_filename fb title ++ jsonExt) = true →
       (delete_chat pf title fb).files =
         deleteFile pf.files (sanitize_filename fb title ++ jsonExt)) ∧
     (fileExists pf.files (title ++ jsonExt) = false →
      fileExists pf.files (sanitize_filename fb title ++ jsonExt) = false →
       (delete_chat pf title fb).files = pf.files)) := by
  constructor
  · unfold delete_folder
    rw [if_pos hfold]
    constructor
    · exact any_filter_not _ _
    · by_cases hd : st.disk.any (fun p => decide (p.1 = name)) = true
      · dsimp only
        rw [if_pos hd]
        exact any_filter_not _ _
      · dsimp only
        rw [if_neg hd]
        exact bool_eq_false hd
  · unfold delete_chat
    rw [if_pos hmem]
    refine ⟨rfl, ?_, ?_, ?_⟩
    · intro h1
      dsimp only
      rw [if_pos h1]
    · intro h1 h2
      dsimp only
      rw [if_neg (by rw [h1]; simp), if_pos h2]
    · intro h1 h2
      dsimp only
      rw [if_neg (by rw [h1]; simp), if_neg (by rw [h2]; simp)]

/-- Witness for `delete_spec` at a concrete folder and chat. -/
theorem delete_spec_witness :
    (delete_chat (FolderView.mk [("a".toList : Str)]
        [(("a.json".toList : Str), some (Json.obj []))]) ("a".toList) ("FB".toList)).items =
      removeFirst [("a".toList : Str)] ("a".toList) :=
  ((delete_spec (PanelState.mk [(("F".toList : Str), [])] [])
      (FolderView.mk [("a".toList : Str)] [(("a.json".toList : Str), some (Json.obj []))])
      ("F".toList) ("a".toList) ("FB".toList) (by decide) (by decide)).2).1

/-- C4 as stated is false at a concrete input: for a chat titled `hello`
whose on-disk file is `HELLO.json` (the very file `resolve_chat_file` resolves
for this chat), `delete_chat` removes the item from memory but deletes
nothing: the chat's JSON file is still on disk afterwards. -/
theorem delete_chat_counterexample :
    (delete_chat (FolderView.mk [("hello".toList : Str)]
        [(("HELLO.json".toList : Str),
          some (Json.obj [(titleKey, Json.str ("hello".toList))]))])
      ("hello".toList) ("FB".toList)).files =
      [(("HELLO.json".toList : Str),
        some (Json.obj [(titleKey, Json.str ("hello".toList))]))] ∧
    resolve_chat_file
        (some [(("HELLO.json".toList : Str),
          some (Json.obj [(titleKey, Json.str ("hello".toList))]))])
        ("hello".toList) = ("HELLO.json".toList : Str) ∧
    fileExists
      (delete_chat (FolderView.mk [("hello".toList : Str)]
          [(("HELLO.json".toList : Str),
            some (Json.obj [(titleKey, Json.str ("hello".toList))]))])
        ("hello".toList) ("FB".toList)).files ("HELLO.json".toList) = true := by
  refine ⟨rfl, by decide, by decide⟩

/-! ### C5 and C8: the single background worker -/

/-- A task queued with `add_task`: the prepared message list and the UI bubble
(identified by a number) the reply should land in. -/
structure AITask where
  msgs : List Json
  bubble : Nat

/-- Outcome of the blocking HTTP POST plus response parsing for one task:
the assistant content and token usage, or the text of the raised exception. -/
inductive HttpOutcome where
  | ok (content : Str) (usage : Option Nat) : HttpOutcome
  | err (msg : Str) : HttpOutcome

/-- One `finished` signal payload: rendered html, raw text, and the bubble. -/
structure Emission where
  html : Str
  raw_text : Str
  bubble : Nat

/-- The error bubble `f"<p style='color:red'>Error: {e}</p>"`. -/
def errHtml (e : Str) : Str :=
  "<p style=".toList ++ [Char.ofNat 39] ++ "color:red".toList ++ [Char.ofNat 39] ++
  ">Error: ".toList ++ e ++ "</p>".toList

/-- `AIChatWorker.run`, modelled on the sequence of queue entries the single
worker thread consumes while `_running` stays true.  `post` is the HTTP call
plus response parsing, `render` is `process_mixed_content`; `none` is the stop
sentinel pushed by `stop()`, which breaks the loop.  The result is the
sequence of `finished` signals emitted, in order. -/
def workerRun (post : AITask → HttpOutcome) (render : Str → Str) :
    List (Option AITask) → List Emission
  | [] => []
  | none :: _ => []
  | some t :: rest =>
    (match post t with
     | HttpOutcome.ok content _ => Emission.mk (render content) content t.bubble
     | HttpOutcome.err e => Emission.mk (errHtml e) e t.bubble) :: workerRun post render rest

/-- The unique `finished` payload produced for one task. -/
def emissionFor (post : AITask → HttpOutcome) (render : Str → Str) (t : AITask) :
    Emission :=
  match post t with
  | HttpOutcome.ok content _ => Emission.mk (render content) content t.bubble
  | HttpOutcome.err e => Emission.mk (errHtml e) e t.bubble

theorem workerRun_map (post : AITask → HttpOutcome) (render : Str → Str) :
    ∀ tasks : List AITask,
      workerRun post render (tasks.map some) = tasks.map (emissionFor post render) := by
  intro tasks
  induction tasks with
  | nil => rfl
  | cons t rest ih =>
    rw [List.map_cons, List.map_cons]
    unfold workerRun
    rw [ih]
    rfl

/-- C5.  The one worker loop consumes the queue in FIFO order: the sequence of
`finished` signals is exactly the per-task payloads in enqueue order, and the
trace of a concatenation of two queue segments is the concatenation of their
traces (the tasks of the first segment are fully handled — one blocking POST
at a time — before any task of the second). -/
theorem worker_fifo (post : AITask → HttpOutcome) (render : Str → Str)
    (tasks ts1 ts2 : List AITask) :
    workerRun post render (tasks.map some) = tasks.map (emissionFor post render) ∧
    (tasks = ts1 ++ ts2 →
      workerRun post render (tasks.map some) =
        workerRun post render (ts1.map some) ++ workerRun post render (ts2.map some)) ∧
    ∀ i : Nat, ((workerRun post render (tasks.map some)).get? i).map Emission.bubble =
      ((tasks.get? i).map AITask.bubble) := by
  refine ⟨workerRun_map post render tasks, ?_, ?_⟩
  · intro h
    subst h
    rw [workerRun_map, workerRun_map, workerRun_map, List.map_append]
  · intro i
    rw [workerRun_map, List.get?_map]
    cases tasks.get? i with
    | none => rfl
    | some t =>
      simp only [Option.map_some']
      unfold emissionFor
      cases hpt : post t <;> rfl

/-- Witness for `worker_fifo` (discharging its one implication) at a concrete
queue of two tasks split around the concatenation. -/
theorem worker_fifo_witness :
    workerRun (fun _ => HttpOutcome.err ("boom".toList)) (fun s => s)
        ([AITask.mk [] 0, AITask.mk [] 1].map some) =
      workerRun (fun _ => HttpOutcome.err ("boom".toList)) (fun s => s)
          ([AITask.mk [] 0].map some) ++
        workerRun (fun _ => HttpOutcome.err ("boom".toList)) (fun s => s)
          ([AITask.mk [] 1].map some) :=
  ((worker_fifo (fun _ => HttpOutcome.err ("boom".toList)) (fun s => s)
    [AITask.mk [] 0, AITask.mk [] 1] [AITask.mk [] 0] [AITask.mk [] 1]).2.1 rfl)

/-- C8.  Exactly one `finished` signal per task taken off the queue while the
worker is running: the trace has one emission per task, in position; a
successful POST yields the rendered html with the raw response text, and any
exception yields the error payload instead — after which the loop proceeds to
the next queued task (the trace keeps covering all later tasks). -/
theorem worker_exactly_one (post : AITask → HttpOutcome) (render : Str → Str)
    (tasks : List AITask) :
    (workerRun post render (tasks.map some)).length = tasks.length ∧
    (∀ i : Nat, (workerRun post render (tasks.map some)).get? i =
      (tasks.get? i).map (fun t =>
        match post t with
        | HttpOutcome.ok content _ => Emission.mk (render content) content t.bubble
        | HttpOutcome.err e => Emission.mk (errHtml e) e t.bubble)) := by
  constructor
  · rw [workerRun_map, List.length_map]
  · intro i
    rw [workerRun_map, List.get?_map]
    rfl

end ChatOps
